import Mathlib

/-!
Shallow embedding of jankowski-dev/crypto-updater (src/app.py and
src/notion_connector.py), written to settle the frozen claims about the
synchronization engine.

Modelling conventions:
* Machine floats in the source carry currency values; they are modelled as
  `Rat` (the claims' thresholds 1e-10 / 1e-11 are exact rationals).
* HTTP interactions are modelled by passing the sequence of responses the
  remote would produce as explicit arguments (`Except String _` for the
  Notion endpoints, `OracleResp` / `ConnResp` for CoinGecko).
* Python exceptions are modelled by `Except.error` / explicit error fields;
  the wall clock is an explicit `PyDateTime` argument.
-/

/-- The `Symbol` property of a Notion page as `app.py` reads it
(src/app.py lines 57-63).  `richText c` / `title c` carry the
`text.content` of the FIRST element of the fragment array (`none` models a
present-but-empty fragment array, where the source's `[0]` raises
`IndexError`); `unsupported` models a missing property or any other
property type (the source's `else` branch yielding `text_content = ""`). -/
inductive SymbolProp where
  | richText (content : Option String)
  | title (content : Option String)
  | unsupported
deriving DecidableEq

/-- One page returned by the Notion database query.  `price` is the stored
`Price` number; `app.py` never reads it (it only extracts the symbol
property), but it is part of the record so that claims about the cached
value can be stated. -/
structure Page where
  id : String
  symbol : SymbolProp
  price : Option Rat
deriving DecidableEq

/-- Model of Python's `str.lower()`: lower-case every character. -/
def pyLower (s : String) : String :=
  String.mk (s.data.map Char.toLower)

/-- Drop leading whitespace characters from a character list. -/
def dropLeadingWs : List Char → List Char
  | [] => []
  | c :: cs => if c.isWhitespace then dropLeadingWs cs else c :: cs

/-- Model of Python's `str.strip()`: remove leading and trailing
whitespace. -/
def pyStrip (s : String) : String :=
  String.mk ((dropLeadingWs (dropLeadingWs s.data).reverse).reverse)

/-- The key normalization the source applies before any map insertion:
`text_content.strip()` at extraction (src/app.py lines 59/61/141/143)
followed by `.lower()` at insertion (lines 66/150). -/
def normalizeKey (s : String) : String :=
  pyLower (pyStrip s)

/-- Extraction of the tracking key from the symbol property, following
src/app.py lines 57-68: trim the first fragment's content (rich_text or
title), treat any other shape as `""`; a non-empty result is lower-cased
and kept, an empty one is skipped with a logged warning (`Except.ok none`);
an empty fragment array raises `IndexError` (`Except.error`). -/
def pageKeyE : SymbolProp → Except String (Option String)
  | SymbolProp.richText none => Except.error "IndexError: list index out of range"
  | SymbolProp.richText (some c) =>
      Except.ok (if pyStrip c = "" then none else some (pyLower (pyStrip c)))
  | SymbolProp.title none => Except.error "IndexError: list index out of range"
  | SymbolProp.title (some c) =>
      Except.ok (if pyStrip c = "" then none else some (pyLower (pyStrip c)))
  | SymbolProp.unsupported => Except.ok none

/-- The page loop of `get_coins_from_notion` (src/app.py lines 55-68) over
one response's `results`, with the keys/warnings accumulated so far.
Returns the accumulator at the point the loop finished, and `some msg` if
a page raised (the exception that escapes to the pagination handler).
Warnings record the id of each skipped page (line 68). -/
def processPagesE (acc : List String × List String) :
    List Page → (List String × List String) × Option String
  | [] => (acc, none)
  | q :: qs =>
    match pageKeyE q.symbol with
    | Except.error m => (acc, some m)
    | Except.ok none => processPagesE (acc.1, acc.2 ++ [q.id]) qs
    | Except.ok (some k) => processPagesE (acc.1 ++ [k], acc.2) qs

/-- Result of `get_coins_from_notion`: the collected coin ids (the source
keeps them in a `set`; the list here preserves insertion order, so the set
is its deduplication), the logged per-page warnings, and the logged
pagination errors. -/
structure EnumOut where
  keys : List String
  warnings : List String
  errors : List String
deriving DecidableEq

/-- Pagination loop of `get_coins_from_notion` (src/app.py lines 45-76):
each list element is one page request's outcome.  On a request failure or
an in-loop exception the source logs the error and `break`s, RETURNING the
partial accumulator (lines 74-76). -/
def getCoinsFromNotionGo (acc : List String × List String) :
    List (Except String (List Page)) → EnumOut
  | [] => ⟨acc.1, acc.2, []⟩
  | Except.error e :: _ => ⟨acc.1, acc.2, [e]⟩
  | Except.ok pgs :: rest =>
    match processPagesE acc pgs with
    | (acc2, none) => getCoinsFromNotionGo acc2 rest
    | (acc2, some m) => ⟨acc2.1, acc2.2, [m]⟩

/-- `get_coins_from_notion` (src/app.py lines 39-79). -/
def getCoinsFromNotion (responses : List (Except String (List Page))) : EnumOut :=
  getCoinsFromNotionGo ([], []) responses

/-- The page loop of `get_all_notion_pages_for_update` (src/app.py lines
136-153): like `processPagesE` but accumulating `(page_id, coin_id)`
pairs. -/
def processRefsE (acc : List (String × String) × List String) :
    List Page → (List (String × String) × List String) × Option String
  | [] => (acc, none)
  | q :: qs =>
    match pageKeyE q.symbol with
    | Except.error m => (acc, some m)
    | Except.ok none => processRefsE (acc.1, acc.2 ++ [q.id]) qs
    | Except.ok (some k) => processRefsE (acc.1 ++ [(q.id, k)], acc.2) qs

/-- Result of `get_all_notion_pages_for_update`. -/
structure PagesOut where
  pages : List (String × String)
  warnings : List String
  errors : List String
deriving DecidableEq

/-- Pagination loop of `get_all_notion_pages_for_update` (src/app.py lines
126-161); on failure it logs and `break`s, returning the partial list
(lines 159-161). -/
def getAllNotionPagesGo (acc : List (String × String) × List String) :
    List (Except String (List Page)) → PagesOut
  | [] => ⟨acc.1, acc.2, []⟩
  | Except.error e :: _ => ⟨acc.1, acc.2, [e]⟩
  | Except.ok pgs :: rest =>
    match processRefsE acc pgs with
    | (acc2, none) => getAllNotionPagesGo acc2 rest
    | (acc2, some m) => ⟨acc2.1, acc2.2, [m]⟩

/-- `get_all_notion_pages_for_update` (src/app.py lines 120-164). -/
def getAllNotionPagesForUpdate (responses : List (Except String (List Page))) : PagesOut :=
  getAllNotionPagesGo ([], []) responses

example :
    getCoinsFromNotion [Except.ok [⟨"p1", SymbolProp.richText (some " BTC "), some 100⟩],
      Except.error "connection reset"]
      = ⟨["btc"], [], ["connection reset"]⟩ := by decide

example :
    getAllNotionPagesForUpdate [Except.ok [⟨"p1", SymbolProp.richText (some "btc"), none⟩,
      ⟨"p2", SymbolProp.unsupported, none⟩]]
      = ⟨[("p1", "btc")], ["p2"], []⟩ := by decide

deriving instance DecidableEq for Except

/-- One attempt's outcome for a CoinGecko chunk request in
`fetch_prices_from_coingecko` (src/app.py lines 95-113): a 200 response
with the parsed per-coin usd prices, a 429 response with an optional
integer Retry-After header, or any other failure (a non-200/429 status or
a raised exception — both take the same control path in the source). -/
inductive OracleResp where
  | ok (data : List (String × Rat))
  | rateLimited (retryAfter : Option Nat)
  | err (msg : String)
deriving DecidableEq

/-- What one chunk's retry loop did: the merged price data on success,
the sleeps performed (in whole seconds, as `int(...)` produces), the
exception re-raised on the final attempt if any, and how many HTTP
requests were issued. -/
structure ChunkResult where
  data : Option (List (String × Rat))
  sleeps : List Nat
  raised : Option String
  requests : Nat
deriving DecidableEq

/-- The `for attempt in range(retries)` loop of
`fetch_prices_from_coingecko` (src/app.py lines 92-113), with
`attemptsLeft` counting the remaining iterations.  A 200 breaks with the
data; a 429 sleeps `int(Retry-After header, default 60)` seconds and goes
to the NEXT attempt (the `continue` advances the loop variable); any other
failure re-raises if this was the last attempt and otherwise goes to the
next attempt.  If the loop exhausts without a break or raise (only
possible through 429s), the chunk is silently abandoned. -/
def runChunkGo : Nat → List OracleResp → ChunkResult
  | 0, _ => ⟨none, [], none, 0⟩
  | _ + 1, [] => ⟨none, [], none, 0⟩
  | n + 1, r :: rs =>
    match r with
    | OracleResp.ok d => ⟨some d, [], none, 1⟩
    | OracleResp.rateLimited ra =>
      let c := runChunkGo n rs
      ⟨c.data, ra.getD 60 :: c.sleeps, c.raised, c.requests + 1⟩
    | OracleResp.err m =>
      if n = 0 then ⟨none, [], some m, 1⟩
      else
        let c := runChunkGo n rs
        ⟨c.data, c.sleeps, c.raised, c.requests + 1⟩

/-- One chunk's retry loop with `retries = 3` (src/app.py line 92). -/
def runChunk (resps : List OracleResp) : ChunkResult :=
  runChunkGo 3 resps

/-- The chunk comprehension
`[lst[i:i+n] for i in range(0, len(lst), n)]` of src/app.py line 85,
written with explicit fuel so that it is structurally recursive (the fuel
`l.length` suffices for any chunk size `n ≥ 1`). -/
def chunksOfGo (n : Nat) : Nat → List String → List (List String)
  | 0, _ => []
  | _ + 1, [] => []
  | fuel + 1, x :: xs => ((x :: xs).take n) :: chunksOfGo n fuel ((x :: xs).drop n)

/-- `chunks` as built at src/app.py line 85. -/
def chunksOf (n : Nat) (l : List String) : List (List String) :=
  chunksOfGo n l.length l

/-- Python `dict.update`: bindings in `new` replace bindings in `old`. -/
def dictUpdate (old new : List (String × Rat)) : List (String × Rat) :=
  old.filter (fun kv => !(new.any (fun kv2 => kv2.1 == kv.1))) ++ new

/-- Overall outcome of `fetch_prices_from_coingecko`: the accumulated
price map (or the exception that escaped), the total number of CoinGecko
requests issued, and the rate-limit sleeps performed. -/
structure FetchOut where
  prices : Except String (List (String × Rat))
  requests : Nat
  sleeps : List Nat
deriving DecidableEq

/-- The per-chunk loop of `fetch_prices_from_coingecko` (src/app.py lines
88-114): each pair is one chunk's key list together with the responses its
attempts would receive.  A chunk whose final attempt hard-fails re-raises,
aborting the whole fetch (the accumulated `all_prices` is lost); an
abandoned chunk (429-exhausted) contributes nothing and the loop
continues. -/
def fetchPricesGo : List (List String × List OracleResp) → FetchOut
  | [] => ⟨Except.ok [], 0, []⟩
  | (_, rs) :: rest =>
    let c := runChunk rs
    match c.raised with
    | some m => ⟨Except.error m, c.requests, c.sleeps⟩
    | none =>
      let r := fetchPricesGo rest
      ⟨match r.prices with
       | Except.error m => Except.error m
       | Except.ok d => Except.ok (dictUpdate (c.data.getD []) d),
       c.requests + r.requests, c.sleeps ++ r.sleeps⟩

/-- `fetch_prices_from_coingecko` (src/app.py lines 82-117) for a given
chunk size (`COINGECKO_CHUNK_SIZE`, default 200): chunk the coin ids and
run each chunk's retry loop against its response sequence. -/
def fetchPricesFromCoingecko (chunkSize : Nat) (coinIds : List String)
    (resps : List (List OracleResp)) : FetchOut :=
  fetchPricesGo ((chunksOf chunkSize coinIds).zip resps)

/-- One attempt's outcome for `CoinGeckoAPI.get_batch_prices`
(src/notion_connector.py lines 594-628): success, an HTTP 429, another
HTTP error, or a non-HTTP exception. -/
inductive ConnResp where
  | ok (data : List (String × Rat))
  | http429
  | httpOther
  | exc
deriving DecidableEq

/-- The retry loop of `CoinGeckoAPI.get_batch_prices`
(src/notion_connector.py lines 590-630), `attempt` being the loop index:
429 with attempts remaining sleeps `(2 ** attempt) * 5` seconds and
retries; a final-attempt 429, any other HTTP error, or any exception
returns the empty dict.  Returns the sleeps performed and the resulting
price data. -/
def getBatchPricesGo : Nat → List ConnResp → List Nat × List (String × Rat)
  | _, [] => ([], [])
  | attempt, r :: rs =>
    match r with
    | ConnResp.ok d => ([], d)
    | ConnResp.http429 =>
      if attempt < 2 then
        let p := getBatchPricesGo (attempt + 1) rs
        ((2 ^ attempt * 5) :: p.1, p.2)
      else ([], [])
    | ConnResp.httpOther => ([], [])
    | ConnResp.exc => ([], [])

/-- `CoinGeckoAPI.get_batch_prices` with `max_retries = 3`
(src/notion_connector.py line 592). -/
def getBatchPrices (resps : List ConnResp) : List Nat × List (String × Rat) :=
  getBatchPricesGo 0 resps

example :
    runChunk [OracleResp.rateLimited none, OracleResp.err "e1", OracleResp.err "e2",
      OracleResp.ok [("btc", 1)]] = ⟨none, [60], some "e2", 3⟩ := by decide

example :
    fetchPricesFromCoingecko 1 ["btc", "eth"]
      [[OracleResp.err "e1", OracleResp.err "e2", OracleResp.err "e3"],
       [OracleResp.ok [("eth", 2000)]]] = ⟨Except.error "e3", 3, []⟩ := by decide

example : getBatchPrices [ConnResp.http429, ConnResp.http429, ConnResp.ok [("btc", 1)]]
    = ([5, 10], [("btc", 1)]) := by decide

example : (chunksOf 2 ["a", "b", "c", "d", "e"]).map List.length = [2, 2, 1] := by decide

/-- A naive Python `datetime` as produced by `datetime.now()`: local wall
time with no timezone information. -/
structure PyDateTime where
  year : Nat
  month : Nat
  day : Nat
  hour : Nat
  minute : Nat
  second : Nat
  microsecond : Nat
deriving DecidableEq

/-- Two-digit zero-padded decimal rendering (`%02d` for values below 100,
which covers every month/day/hour/minute/second). -/
def pad2 (n : Nat) : List Char :=
  [Nat.digitChar (n / 10 % 10), Nat.digitChar (n % 10)]

/-- Four-digit zero-padded decimal rendering (`%04d` for values below
10000, which covers every year). -/
def pad4 (n : Nat) : List Char :=
  [Nat.digitChar (n / 1000 % 10), Nat.digitChar (n / 100 % 10),
   Nat.digitChar (n / 10 % 10), Nat.digitChar (n % 10)]

/-- Six-digit zero-padded decimal rendering (`%06d` for values below
1000000, which covers every microsecond count). -/
def pad6 (n : Nat) : List Char :=
  [Nat.digitChar (n / 100000 % 10), Nat.digitChar (n / 10000 % 10),
   Nat.digitChar (n / 1000 % 10), Nat.digitChar (n / 100 % 10),
   Nat.digitChar (n / 10 % 10), Nat.digitChar (n % 10)]

/-- Character sequence of Python's `datetime.isoformat()` on a naive
datetime: `YYYY-MM-DDTHH:MM:SS.ffffff`, with the fractional part omitted
entirely when `microsecond == 0`.  No timezone designator is ever
appended for a naive datetime. -/
def isoformatData (dt : PyDateTime) : List Char :=
  pad4 dt.year ++ '-' :: pad2 dt.month ++ '-' :: pad2 dt.day ++
    'T' :: pad2 dt.hour ++ ':' :: pad2 dt.minute ++ ':' :: pad2 dt.second ++
    (if dt.microsecond = 0 then [] else '.' :: pad6 dt.microsecond)

/-- `datetime.now().isoformat()` as used at src/app.py line 173. -/
def isoformat (dt : PyDateTime) : String :=
  String.mk (isoformatData dt)

/-- The PATCH body built by `update_single_notion_page` (src/app.py lines
170-175): the price column set to the new price and the last-updated
column set to `datetime.now().isoformat()`. -/
structure PatchPayload where
  price : Rat
  timestamp : String
deriving DecidableEq

/-- Payload construction of `update_single_notion_page` for one task
`(page_id, new_price)` given the current wall clock. -/
def buildPayload (now : PyDateTime) (task : String × Rat) : PatchPayload :=
  { price := task.2, timestamp := isoformat now }

/-- Outcome of `update_single_notion_page` (src/app.py lines 167-181)
given the PATCH request's result: on success `(True, page_id)`, and on ANY
exception — authentication errors included — `(False, "page_id: msg")`.
The function never lets an exception escape past its handler. -/
def updateSingleNotionPage (patchResult : Except String Unit)
    (task : String × Rat) : Bool × String :=
  match patchResult with
  | Except.ok _ => (true, task.1)
  | Except.error e => (false, task.1 ++ ": " ++ e)

/-- The dispatch step of `update_notion_database` (src/app.py lines
216-219): `executor.map(update_single_notion_page, update_tasks)` produces
one outcome per task, in task order; `patchResults` pairs each task with
its PATCH request's result. -/
def updateNotionDatabaseResults (patchResults : List (Except String Unit))
    (tasks : List (String × Rat)) : List (Bool × String) :=
  (tasks.zip patchResults).map (fun tr => updateSingleNotionPage tr.2 tr.1)

/-- Python `prices_map.get`-style lookup used by the membership test
`coin_id in prices_map` and the read `prices_map[coin_id]`
(src/app.py lines 205-206). -/
def lookupPrice (m : List (String × Rat)) (k : String) : Option Rat :=
  (m.find? (fun kv => kv.1 == k)).map (fun kv => kv.2)

/-- Task construction of `update_notion_database` (src/app.py lines
202-208): one `(page_id, price)` task for EVERY page whose coin id is in
the price map; pages with no quote are skipped with a warning.  No cached
value is consulted anywhere. -/
def buildUpdateTasks (pages : List (String × String))
    (prices : List (String × Rat)) : List (String × Rat) :=
  pages.filterMap (fun pr => (lookupPrice prices pr.2).map (fun v => (pr.1, v)))

example :
    isoformat ⟨2026, 10, 12, 15, 4, 5, 123456⟩ = "2026-10-12T15:04:05.123456" := by decide

example :
    ("2026-10-12T15:04:05.123456" : String).data.getLast? = some '6' := by decide

example :
    updateNotionDatabaseResults [Except.error "401 Client Error: Unauthorized", Except.ok ()]
      [("p1", 5), ("p2", 6)]
      = [(false, "p1: 401 Client Error: Unauthorized"), (true, "p2")] := by decide

example :
    buildUpdateTasks [("p1", "btc"), ("p2", "doge")] [("btc", 100)]
      = [("p1", 100)] := by decide

/-! ## Helper lemmas -/

lemma chunksOfGo_fuel (n : Nat) (hn : 0 < n) :
    ∀ (f1 f2 : Nat) (l : List String), l.length ≤ f1 → l.length ≤ f2 →
      chunksOfGo n f1 l = chunksOfGo n f2 l := by
  intro f1
  induction f1 with
  | zero =>
    intro f2 l h1 h2
    have hl : l = [] := List.eq_nil_of_length_eq_zero (Nat.le_zero.mp h1)
    subst hl
    cases f2 <;> rfl
  | succ f ih =>
    intro f2 l h1 h2
    cases l with
    | nil => cases f2 <;> rfl
    | cons x xs =>
      cases f2 with
      | zero => simp at h2
      | succ f2 =>
        simp only [chunksOfGo]
        congr 1
        apply ih
        · simp only [List.length_drop, List.length_cons] at h1 ⊢
          omega
        · simp only [List.length_drop, List.length_cons] at h2 ⊢
          omega

lemma chunksOf_cons (n : Nat) (hn : 0 < n) (x : String) (xs : List String) :
    chunksOf n (x :: xs) = (x :: xs).take n :: chunksOf n ((x :: xs).drop n) := by
  show chunksOfGo n (x :: xs).length (x :: xs) = _
  simp only [List.length_cons, chunksOfGo]
  congr 1
  apply chunksOfGo_fuel n hn
  · simp only [List.length_drop, List.length_cons]
    omega
  · exact le_rfl

lemma chunksOf_length (n : Nat) (hn : 0 < n) (l : List String) :
    (chunksOf n l).length = (l.length + n - 1) / n := by
  have H : ∀ (k : Nat) (l : List String), l.length ≤ k →
      (chunksOf n l).length = (l.length + n - 1) / n := by
    intro k
    induction k with
    | zero =>
      intro l h
      have hl : l = [] := List.eq_nil_of_length_eq_zero (Nat.le_zero.mp h)
      subst hl
      show (0 : Nat) = (0 + n - 1) / n
      rw [Nat.zero_add, Nat.div_eq_of_lt (by omega)]
    | succ k ih =>
      intro l h
      cases l with
      | nil =>
        show (0 : Nat) = (0 + n - 1) / n
        rw [Nat.zero_add, Nat.div_eq_of_lt (by omega)]
      | cons x xs =>
        rw [chunksOf_cons n hn, List.length_cons,
          ih _ (by simp only [List.length_drop, List.length_cons] at h ⊢; omega)]
        simp only [List.length_drop, List.length_cons]
        rcases Nat.le_total (xs.length + 1) n with hle | hge
        · have h0 : xs.length + 1 - n = 0 := by omega
          rw [h0, Nat.zero_add, Nat.div_eq_of_lt (by omega)]
          have : xs.length + 1 + n - 1 = xs.length + n := by omega
          rw [this]
          have h1n : (xs.length + n) / n = 1 := by
            apply Nat.div_eq_of_lt_le <;> omega
          omega
        · have e1 : xs.length + 1 - n + n - 1 = xs.length := by omega
          have e2 : xs.length + 1 + n - 1 = xs.length + n := by omega
          rw [e1, e2, Nat.add_div_right _ hn]
  exact H l.length l le_rfl

lemma chunksOf_join (n : Nat) (hn : 0 < n) (l : List String) :
    (chunksOf n l).flatten = l := by
  have H : ∀ (k : Nat) (l : List String), l.length ≤ k → (chunksOf n l).flatten = l := by
    intro k
    induction k with
    | zero =>
      intro l h
      have hl : l = [] := List.eq_nil_of_length_eq_zero (Nat.le_zero.mp h)
      subst hl
      rfl
    | succ k ih =>
      intro l h
      cases l with
      | nil => rfl
      | cons x xs =>
        rw [chunksOf_cons n hn, List.flatten_cons,
          ih _ (by simp only [List.length_drop, List.length_cons] at h ⊢; omega)]
        exact List.take_append_drop n (x :: xs)
  exact H l.length l le_rfl

lemma chunksOf_full (n : Nat) (hn : 0 < n) (l : List String) :
    ∀ c ∈ (chunksOf n l).dropLast, c.length = n := by
  have H : ∀ (k : Nat) (l : List String), l.length ≤ k →
      ∀ c ∈ (chunksOf n l).dropLast, c.length = n := by
    intro k
    induction k with
    | zero =>
      intro l h c hc
      have hl : l = [] := List.eq_nil_of_length_eq_zero (Nat.le_zero.mp h)
      subst hl
      simp [chunksOf, chunksOfGo] at hc
    | succ k ih =>
      intro l h c hc
      cases l with
      | nil => simp [chunksOf, chunksOfGo] at hc
      | cons x xs =>
        rw [chunksOf_cons n hn] at hc
        by_cases hd : (x :: xs).drop n = []
        · rw [hd] at hc
          simp [chunksOf, chunksOfGo] at hc
        · have hne : chunksOf n ((x :: xs).drop n) ≠ [] := by
            obtain ⟨y, ys, hys⟩ := List.exists_cons_of_ne_nil hd
            rw [hys, chunksOf_cons n hn]
            simp
          rw [List.dropLast_cons_of_ne_nil hne, List.mem_cons] at hc
          rcases hc with rfl | hc
          · have hlen : n < (x :: xs).length := by
              by_contra hle
              push_neg at hle
              exact hd (List.drop_eq_nil_of_le hle)
            simp only [List.length_take]
            omega
          · exact ih ((x :: xs).drop n)
              (by simp only [List.length_drop, List.length_cons] at h ⊢; omega) c hc
  exact H l.length l le_rfl

lemma runChunk_firstOk (d : List (String × Rat)) (rest0 : List OracleResp) :
    runChunk (OracleResp.ok d :: rest0) = ⟨some d, [], none, 1⟩ := rfl

lemma fetchPricesGo_firstOk (pairs : List (List String × List OracleResp))
    (h : ∀ pr ∈ pairs, ∃ d rest0, pr.2 = OracleResp.ok d :: rest0) :
    (fetchPricesGo pairs).requests = pairs.length ∧
      ∃ m, (fetchPricesGo pairs).prices = Except.ok m := by
  induction pairs with
  | nil => exact ⟨rfl, [], rfl⟩
  | cons pr rest ih =>
    obtain ⟨d, rest0, h2⟩ := h pr (List.mem_cons_self pr rest)
    obtain ⟨hreq, m, hm⟩ := ih (fun q hq => h q (List.mem_cons_of_mem pr hq))
    obtain ⟨ks, rs⟩ := pr
    simp only at h2
    subst h2
    constructor
    · simp only [fetchPricesGo, runChunk_firstOk, hreq, List.length_cons]
      omega
    · refine ⟨dictUpdate d m, ?_⟩
      simp only [fetchPricesGo, runChunk_firstOk, hm]
      rfl

lemma processPagesE_shift (ks ws : List String) (l : List Page) :
    processPagesE (ks, ws) l =
      ((ks ++ (processPagesE ([], []) l).1.1, ws ++ (processPagesE ([], []) l).1.2),
        (processPagesE ([], []) l).2) := by
  induction l generalizing ks ws with
  | nil => simp [processPagesE]
  | cons q qs ih =>
    cases hk : pageKeyE q.symbol with
    | error m => simp [processPagesE, hk]
    | ok o =>
      cases o with
      | none =>
        simp only [processPagesE, hk, List.nil_append]
        rw [ih ks (ws ++ [q.id]), ih [] [q.id]]
        simp [List.append_assoc]
      | some k2 =>
        simp only [processPagesE, hk, List.nil_append]
        rw [ih (ks ++ [k2]) ws, ih [k2] []]
        simp [List.append_assoc]

lemma processRefsE_shift (ks : List (String × String)) (ws : List String) (l : List Page) :
    processRefsE (ks, ws) l =
      ((ks ++ (processRefsE ([], []) l).1.1, ws ++ (processRefsE ([], []) l).1.2),
        (processRefsE ([], []) l).2) := by
  induction l generalizing ks ws with
  | nil => simp [processRefsE]
  | cons q qs ih =>
    cases hk : pageKeyE q.symbol with
    | error m => simp [processRefsE, hk]
    | ok o =>
      cases o with
      | none =>
        simp only [processRefsE, hk, List.nil_append]
        rw [ih ks (ws ++ [q.id]), ih [] [q.id]]
        simp [List.append_assoc]
      | some k2 =>
        simp only [processRefsE, hk, List.nil_append]
        rw [ih (ks ++ [(q.id, k2)]) ws, ih [(q.id, k2)] []]
        simp [List.append_assoc]

lemma processPagesE_clean (l : List Page)
    (h : ∀ q ∈ l, ∃ o, pageKeyE q.symbol = Except.ok o) (ks ws : List String) :
    (processPagesE (ks, ws) l).2 = none := by
  induction l generalizing ks ws with
  | nil => rfl
  | cons q qs ih =>
    obtain ⟨o, ho⟩ := h q (List.mem_cons_self q qs)
    have hrest : ∀ q2 ∈ qs, ∃ o2, pageKeyE q2.symbol = Except.ok o2 :=
      fun q2 hq => h q2 (List.mem_cons_of_mem q hq)
    cases o with
    | none => simp only [processPagesE, ho]; exact ih hrest _ _
    | some k2 => simp only [processPagesE, ho]; exact ih hrest _ _

lemma processRefsE_clean (l : List Page)
    (h : ∀ q ∈ l, ∃ o, pageKeyE q.symbol = Except.ok o) (ks : List (String × String))
    (ws : List String) :
    (processRefsE (ks, ws) l).2 = none := by
  induction l generalizing ks ws with
  | nil => rfl
  | cons q qs ih =>
    obtain ⟨o, ho⟩ := h q (List.mem_cons_self q qs)
    have hrest : ∀ q2 ∈ qs, ∃ o2, pageKeyE q2.symbol = Except.ok o2 :=
      fun q2 hq => h q2 (List.mem_cons_of_mem q hq)
    cases o with
    | none => simp only [processRefsE, ho]; exact ih hrest _ _
    | some k2 => simp only [processRefsE, ho]; exact ih hrest _ _

lemma pyLower_empty_iff (s : String) : pyLower s = "" ↔ s = "" := by
  cases s with
  | mk d =>
    constructor
    · intro h
      have hd : d.map Char.toLower = [] := congrArg String.data h
      have hnil : d = [] := List.map_eq_nil_iff.mp hd
      rw [hnil]
    · intro h
      have hd : d = [] := congrArg String.data h
      rw [hd]
      rfl

lemma digitChar_mod_ne_Z (n : Nat) : Nat.digitChar (n % 10) ≠ 'Z' := by
  have h : n % 10 < 10 := Nat.mod_lt n (by norm_num)
  revert h
  generalize n % 10 = k
  intro h
  interval_cases k <;> decide

lemma isoformatData_getLast (dt : PyDateTime) :
    (isoformatData dt).getLast? = some (Nat.digitChar (dt.second % 10)) ∨
      (isoformatData dt).getLast? = some (Nat.digitChar (dt.microsecond % 10)) := by
  by_cases h : dt.microsecond = 0
  · left
    unfold isoformatData
    rw [if_pos h]
    rfl
  · right
    unfold isoformatData
    rw [if_neg h]
    rfl

lemma isoformat_not_Z (dt : PyDateTime) : (isoformat dt).data.getLast? ≠ some 'Z' := by
  have hd : (isoformat dt).data = isoformatData dt := rfl
  rw [hd]
  rcases isoformatData_getLast dt with h | h <;> rw [h] <;> intro heq <;>
    exact digitChar_mod_ne_Z _ (Option.some.inj heq)

lemma processPagesE_append (l1 l2 : List Page) (acc : List String × List String)
    (h : (processPagesE acc l1).2 = none) :
    processPagesE acc (l1 ++ l2) = processPagesE (processPagesE acc l1).1 l2 := by
  induction l1 generalizing acc with
  | nil => rfl
  | cons q qs ih =>
    cases hk : pageKeyE q.symbol with
    | error m => simp [processPagesE, hk] at h
    | ok o =>
      cases o with
      | none =>
        simp only [processPagesE, hk, List.cons_append] at h ⊢
        exact ih _ h
      | some k2 =>
        simp only [processPagesE, hk, List.cons_append] at h ⊢
        exact ih _ h

lemma processRefsE_append (l1 l2 : List Page) (acc : List (String × String) × List String)
    (h : (processRefsE acc l1).2 = none) :
    processRefsE acc (l1 ++ l2) = processRefsE (processRefsE acc l1).1 l2 := by
  induction l1 generalizing acc with
  | nil => rfl
  | cons q qs ih =>
    cases hk : pageKeyE q.symbol with
    | error m => simp [processRefsE, hk] at h
    | ok o =>
      cases o with
      | none =>
        simp only [processRefsE, hk, List.cons_append] at h ⊢
        exact ih _ h
      | some k2 =>
        simp only [processRefsE, hk, List.cons_append] at h ⊢
        exact ih _ h

lemma getCoins_single_clean (L : List Page)
    (h : (processPagesE ([], []) L).2 = none) :
    getCoinsFromNotion [Except.ok L]
      = ⟨(processPagesE ([], []) L).1.1, (processPagesE ([], []) L).1.2, []⟩ := by
  show getCoinsFromNotionGo ([], []) [Except.ok L] = _
  rcases hpp : processPagesE ([], []) L with ⟨⟨ks0, ws0⟩, ex⟩
  rw [hpp] at h
  simp only at h
  subst h
  simp only [getCoinsFromNotionGo, hpp]

lemma getCoins_single_raise (L : List Page) (m : String)
    (h : (processPagesE ([], []) L).2 = some m) :
    getCoinsFromNotion [Except.ok L]
      = ⟨(processPagesE ([], []) L).1.1, (processPagesE ([], []) L).1.2, [m]⟩ := by
  show getCoinsFromNotionGo ([], []) [Except.ok L] = _
  rcases hpp : processPagesE ([], []) L with ⟨⟨ks0, ws0⟩, ex⟩
  rw [hpp] at h
  simp only at h
  subst h
  simp only [getCoinsFromNotionGo, hpp]

lemma getCoins_ok_then_error (pgs : List Page) (e : String)
    (rest : List (Except String (List Page)))
    (h : (processPagesE ([], []) pgs).2 = none) :
    getCoinsFromNotion (Except.ok pgs :: Except.error e :: rest)
      = ⟨(processPagesE ([], []) pgs).1.1, (processPagesE ([], []) pgs).1.2, [e]⟩ := by
  show getCoinsFromNotionGo ([], []) (Except.ok pgs :: Except.error e :: rest) = _
  rcases hpp : processPagesE ([], []) pgs with ⟨⟨ks0, ws0⟩, ex⟩
  rw [hpp] at h
  simp only at h
  subst h
  simp only [getCoinsFromNotionGo, hpp]

lemma getPages_single_clean (L : List Page)
    (h : (processRefsE ([], []) L).2 = none) :
    getAllNotionPagesForUpdate [Except.ok L]
      = ⟨(processRefsE ([], []) L).1.1, (processRefsE ([], []) L).1.2, []⟩ := by
  show getAllNotionPagesGo ([], []) [Except.ok L] = _
  rcases hpp : processRefsE ([], []) L with ⟨⟨ks0, ws0⟩, ex⟩
  rw [hpp] at h
  simp only at h
  subst h
  simp only [getAllNotionPagesGo, hpp]

lemma getPages_ok_then_error (pgs : List Page) (e : String)
    (rest : List (Except String (List Page)))
    (h : (processRefsE ([], []) pgs).2 = none) :
    getAllNotionPagesForUpdate (Except.ok pgs :: Except.error e :: rest)
      = ⟨(processRefsE ([], []) pgs).1.1, (processRefsE ([], []) pgs).1.2, [e]⟩ := by
  show getAllNotionPagesGo ([], []) (Except.ok pgs :: Except.error e :: rest) = _
  rcases hpp : processRefsE ([], []) pgs with ⟨⟨ks0, ws0⟩, ex⟩
  rw [hpp] at h
  simp only at h
  subst h
  simp only [getAllNotionPagesGo, hpp]

/-! ## Claim theorems -/

/-- C1 counterexample.  A record whose cached `Price` is 100 and whose
quote is `100 + 1e-11` (absolute difference exactly 1e-11, strictly below
the claimed 1e-10 threshold) still yields an update task: the task list
built by `update_notion_database` from the enumerated page is nonempty,
because the code never reads the cached value and applies no threshold. -/
theorem c1_counterexample :
    (getAllNotionPagesForUpdate
        [Except.ok [⟨"p1", SymbolProp.richText (some "btc"), some 100⟩]]).pages
      = [("p1", "btc")]
    ∧ (⟨"p1", SymbolProp.richText (some "btc"), some 100⟩ : Page).price = some 100
    ∧ buildUpdateTasks [("p1", "btc")] [("btc", 100 + 1 / 100000000000)]
      = [("p1", 100 + 1 / 100000000000)]
    ∧ ((100 + 1 / 100000000000 : Rat) - 100 = 1 / 100000000000)
    ∧ ((1 : Rat) / 100000000000 < 1 / 10000000000)
    ∧ [("p1", (100 + 1 / 100000000000 : Rat))] ≠ [] := by
  refine ⟨by decide, rfl, rfl, by norm_num, by norm_num, by simp⟩

/-- C1 amended: the reconciliation step of `update_notion_database` emits
one update task for EVERY enumerated page whose tracking key resolves in
the price map, unconditionally — the cached value is never read and no
1e-10 threshold (nor any other comparison) is applied; conversely every
task comes from a page with a resolved quote. -/
theorem c1_amended (pages : List (String × String)) (prices : List (String × Rat))
    (pid key : String) (v : Rat) (hp : (pid, key) ∈ pages)
    (hv : lookupPrice prices key = some v) :
    (pid, v) ∈ buildUpdateTasks pages prices
    ∧ ∀ t ∈ buildUpdateTasks pages prices,
        ∃ pr ∈ pages, lookupPrice prices pr.2 = some t.2 ∧ t.1 = pr.1 := by
  constructor
  · rw [buildUpdateTasks, List.mem_filterMap]
    exact ⟨(pid, key), hp, by simp [hv]⟩
  · intro t ht
    rw [buildUpdateTasks, List.mem_filterMap] at ht
    obtain ⟨pr, hpr, hmap⟩ := ht
    rcases hmo : lookupPrice prices pr.2 with _ | v2
    · rw [hmo] at hmap
      simp at hmap
    · rw [hmo] at hmap
      have hpt : (pr.1, v2) = t := Option.some.inj hmap
      subst hpt
      exact ⟨pr, hpr, by rw [hmo], rfl⟩

/-- C1 amended witness at a concrete page and price map. -/
theorem c1_amended_witness :
    (("p1", "btc") ∈ [(("p1" : String), ("btc" : String))])
    ∧ lookupPrice [("btc", (7 : Rat))] "btc" = some 7
    ∧ ("p1", (7 : Rat)) ∈ buildUpdateTasks [("p1", "btc")] [("btc", 7)] :=
  ⟨by decide, rfl,
    (c1_amended [("p1", "btc")] [("btc", 7)] "p1" "btc" 7 (by decide) rfl).1⟩

/-- C2 counterexample.  A pagination run whose first page request succeeds
(with a "btc" record) and whose second fails returns the partial result
`["btc"]` with the error merely logged: the enumeration does not fail, and
the partial page list is fed on into task construction (yielding a task),
contradicting "the entire enumeration fails … partial pagination results
are discarded". -/
theorem c2_counterexample :
    getCoinsFromNotion [Except.ok [⟨"p1", SymbolProp.richText (some "btc"), some 100⟩],
        Except.error "connection reset"]
      = ⟨["btc"], [], ["connection reset"]⟩
    ∧ getAllNotionPagesForUpdate
        [Except.ok [⟨"p1", SymbolProp.richText (some "btc"), some 100⟩],
          Except.error "connection reset"]
      = ⟨[("p1", "btc")], [], ["connection reset"]⟩
    ∧ buildUpdateTasks [("p1", "btc")] [("btc", 5)] = [("p1", 5)]
    ∧ (["btc"] : List String) ≠ [] := by
  refine ⟨by decide, by decide, rfl, by simp⟩

/-- C2 amended: when a page request fails mid-pagination, both enumeration
functions log the error, stop paginating (responses after the failure are
never consulted), and RETURN the records accumulated from the earlier
successful pages, which the rest of the pipeline then uses. -/
theorem c2_amended (pgs : List Page) (e : String)
    (rest : List (Except String (List Page)))
    (hclean : ∀ q ∈ pgs, ∃ o, pageKeyE q.symbol = Except.ok o) :
    getCoinsFromNotion (Except.ok pgs :: Except.error e :: rest)
      = ⟨(processPagesE ([], []) pgs).1.1, (processPagesE ([], []) pgs).1.2, [e]⟩
    ∧ getAllNotionPagesForUpdate (Except.ok pgs :: Except.error e :: rest)
      = ⟨(processRefsE ([], []) pgs).1.1, (processRefsE ([], []) pgs).1.2, [e]⟩ :=
  ⟨getCoins_ok_then_error pgs e rest (processPagesE_clean pgs hclean [] []),
    getPages_ok_then_error pgs e rest (processRefsE_clean pgs hclean [] [])⟩

/-- C2 amended witness at a concrete one-page run. -/
theorem c2_amended_witness :
    (∀ q ∈ [(⟨"p1", SymbolProp.richText (some "btc"), some 100⟩ : Page)],
      ∃ o, pageKeyE q.symbol = Except.ok o)
    ∧ getCoinsFromNotion
        [Except.ok [⟨"p1", SymbolProp.richText (some "btc"), some 100⟩],
          Except.error "boom"]
      = ⟨(processPagesE ([], [])
            [(⟨"p1", SymbolProp.richText (some "btc"), some 100⟩ : Page)]).1.1,
          (processPagesE ([], [])
            [(⟨"p1", SymbolProp.richText (some "btc"), some 100⟩ : Page)]).1.2, ["boom"]⟩ := by
  have hc : ∀ q ∈ [(⟨"p1", SymbolProp.richText (some "btc"), some 100⟩ : Page)],
      ∃ o, pageKeyE q.symbol = Except.ok o := by
    intro q hq
    simp only [List.mem_singleton] at hq
    subst hq
    exact ⟨some "btc", by decide⟩
  exact ⟨hc, (c2_amended [⟨"p1", SymbolProp.richText (some "btc"), some 100⟩] "boom" [] hc).1⟩

/-- C3 counterexample.  Two chunks (chunk size 1 over two coins); the first
chunk hard-fails on all 3 attempts.  The fetch does NOT abandon the chunk:
it re-raises the third error, only 3 requests are ever issued (the second
chunk, whose response was a success, is never fetched), and no price map is
produced — the quoting phase fails the run. -/
theorem c3_counterexample :
    fetchPricesFromCoingecko 1 ["btc", "eth"]
        [[OracleResp.err "e1", OracleResp.err "e2", OracleResp.err "e3"],
          [OracleResp.ok [("eth", 2000)]]]
      = ⟨Except.error "e3", 3, []⟩
    ∧ (chunksOf 1 ["btc", "eth"]).length = 2 := by
  exact ⟨by decide, by decide⟩

/-- C3 amended: a chunk whose 3 attempts all hard-fail causes
`fetch_prices_from_coingecko` to re-raise the final error, aborting the
whole fetch — accumulated prices are discarded and later chunks are not
requested.  Only a chunk that exhausts its attempts through rate-limit
(429) responses is silently abandoned (no raise, no data, loop moves on). -/
theorem c3_amended (m1 m2 m3 : String) (ra1 ra2 ra3 : Option Nat) :
    runChunk [OracleResp.err m1, OracleResp.err m2, OracleResp.err m3]
      = ⟨none, [], some m3, 3⟩
    ∧ (∀ (ks : List String) (pairs : List (List String × List OracleResp)),
        fetchPricesGo ((ks, [OracleResp.err m1, OracleResp.err m2, OracleResp.err m3]) :: pairs)
          = ⟨Except.error m3, 3, []⟩)
    ∧ runChunk [OracleResp.rateLimited ra1, OracleResp.rateLimited ra2,
        OracleResp.rateLimited ra3]
      = ⟨none, [ra1.getD 60, ra2.getD 60, ra3.getD 60], none, 3⟩ := by
  refine ⟨rfl, fun ks pairs => rfl, rfl⟩

/-- C4 counterexample.  Two queued tasks; the first PATCH fails with an
authentication error.  The dispatcher records it as an ordinary
`(False, reason)` per-item outcome and the sibling update is still
attempted (and succeeds) — the run does not terminate. -/
theorem c4_counterexample :
    updateNotionDatabaseResults
        [Except.error "401 Client Error: Unauthorized", Except.ok ()]
        [("p1", 5), ("p2", 6)]
      = [(false, "p1: 401 Client Error: Unauthorized"), (true, "p2")] := by
  decide

/-- C4 amended: every PATCH failure — authentication errors included — is
caught inside `update_single_notion_page` and recorded as a
`(False, "page_id: msg")` outcome; the remaining tasks are still
dispatched and the run proceeds to its summary. -/
theorem c4_amended (e : String) (t : String × Rat) (rs : List (Except String Unit))
    (ts : List (String × Rat)) :
    updateSingleNotionPage (Except.error e) t = (false, t.1 ++ ": " ++ e)
    ∧ updateNotionDatabaseResults (Except.error e :: rs) (t :: ts)
      = (false, t.1 ++ ": " ++ e) :: updateNotionDatabaseResults rs ts := by
  exact ⟨rfl, rfl⟩

set_option maxRecDepth 8192 in
/-- C5: the chunk comprehension partitions the coin ids into
`ceil(n / chunk_size)` chunks, every chunk but possibly the last of exactly
`chunk_size` keys, whose concatenation is the input; 450 keys at chunk
size 200 give chunks of sizes 200, 200, 50; and on a failure-free run
(every chunk answered on its first attempt) the client issues exactly one
request per chunk. -/
theorem c5_chunking (n : Nat) (hn : 0 < n) (l : List String) :
    (chunksOf n l).length = (l.length + n - 1) / n
    ∧ (∀ c ∈ (chunksOf n l).dropLast, c.length = n)
    ∧ (chunksOf n l).flatten = l
    ∧ (chunksOf 200 (List.replicate 450 "k")).map List.length = [200, 200, 50]
    ∧ (∀ datas : List (List (String × Rat)), datas.length = (chunksOf n l).length →
        (fetchPricesFromCoingecko n l (datas.map fun d => [OracleResp.ok d])).requests
          = (chunksOf n l).length) := by
  refine ⟨chunksOf_length n hn l, chunksOf_full n hn l, chunksOf_join n hn l, by decide, ?_⟩
  intro datas hlen
  have hok : ∀ pr ∈ (chunksOf n l).zip (datas.map fun d => [OracleResp.ok d]),
      ∃ d rest0, pr.2 = OracleResp.ok d :: rest0 := by
    intro pr hpr
    obtain ⟨ks, rs⟩ := pr
    have hm := (List.of_mem_zip hpr).2
    rw [List.mem_map] at hm
    obtain ⟨d, _, hd⟩ := hm
    exact ⟨d, [], hd.symm⟩
  have h1 := (fetchPricesGo_firstOk _ hok).1
  rw [fetchPricesFromCoingecko, h1, List.length_zip, List.length_map, hlen, Nat.min_self]

set_option maxRecDepth 8192 in
/-- C5 witness: the concrete 450-key, chunk-size-200 instance. -/
theorem c5_chunking_witness :
    (0 < 200)
    ∧ ([[], [], []] : List (List (String × Rat))).length
        = (chunksOf 200 (List.replicate 450 "k")).length
    ∧ (fetchPricesFromCoingecko 200 (List.replicate 450 "k")
          (([[], [], []] : List (List (String × Rat))).map fun d => [OracleResp.ok d])).requests
        = (chunksOf 200 (List.replicate 450 "k")).length := by
  refine ⟨by decide, by decide, ?_⟩
  exact (c5_chunking 200 (by decide) (List.replicate 450 "k")).2.2.2.2 [[], [], []] (by decide)

/-- C6: tracking keys are normalized by whitespace-stripping then
lower-casing before insertion; `normalize " BTC " = normalize "btc" =
"btc"`; both field representations extract through this normalization; and
two raw keys with the same normalization yield the same extracted oracle
key (even across the two supported field types). -/
theorem c6_normalization :
    normalizeKey " BTC " = normalizeKey "btc"
    ∧ normalizeKey "btc" = "btc"
    ∧ (∀ c, pageKeyE (SymbolProp.richText (some c))
        = Except.ok (if pyStrip c = "" then none else some (normalizeKey c)))
    ∧ (∀ c, pageKeyE (SymbolProp.title (some c))
        = Except.ok (if pyStrip c = "" then none else some (normalizeKey c)))
    ∧ (∀ c1 c2, normalizeKey c1 = normalizeKey c2 →
        pageKeyE (SymbolProp.richText (some c1)) = pageKeyE (SymbolProp.title (some c2))) := by
  refine ⟨by decide, by decide, fun c => rfl, fun c => rfl, ?_⟩
  intro c1 c2 h
  simp only [pageKeyE]
  by_cases h1 : pyStrip c1 = ""
  · have h2 : pyStrip c2 = "" := by
      have e1 : normalizeKey c1 = "" := by
        simp only [normalizeKey, h1]
        exact (pyLower_empty_iff "").mpr rfl
      rw [h] at e1
      exact (pyLower_empty_iff _).mp e1
    rw [if_pos h1, if_pos h2]
  · have h2 : ¬ pyStrip c2 = "" := by
      intro hc
      apply h1
      have e2 : normalizeKey c2 = "" := by
        simp only [normalizeKey, hc]
        exact (pyLower_empty_iff "").mpr rfl
      rw [← h] at e2
      exact (pyLower_empty_iff _).mp e2
    rw [if_neg h1, if_neg h2]
    have hl : pyLower (pyStrip c1) = pyLower (pyStrip c2) := h
    rw [hl]

/-- C6 witness: keys differing only in case and surrounding whitespace
resolve identically. -/
theorem c6_normalization_witness :
    normalizeKey " BTC " = normalizeKey "btc"
    ∧ pageKeyE (SymbolProp.richText (some " BTC "))
        = pageKeyE (SymbolProp.title (some "btc")) :=
  ⟨by decide, c6_normalization.2.2.2.2 " BTC " "btc" (by decide)⟩

lemma processPagesE_skip (ks ws : List String) (p : Page) (post : List Page)
    (h : pageKeyE p.symbol = Except.ok none) :
    processPagesE (ks, ws) (p :: post)
      = ((ks ++ (processPagesE ([], []) post).1.1,
          (ws ++ [p.id]) ++ (processPagesE ([], []) post).1.2),
         (processPagesE ([], []) post).2) := by
  simp only [processPagesE, h]
  exact processPagesE_shift ks (ws ++ [p.id]) post

lemma processRefsE_skip (ks : List (String × String)) (ws : List String) (p : Page)
    (post : List Page) (h : pageKeyE p.symbol = Except.ok none) :
    processRefsE (ks, ws) (p :: post)
      = ((ks ++ (processRefsE ([], []) post).1.1,
          (ws ++ [p.id]) ++ (processRefsE ([], []) post).1.2),
         (processRefsE ([], []) post).2) := by
  simp only [processRefsE, h]
  exact processRefsE_shift ks (ws ++ [p.id]) post

/-- C7: a record whose tracking-key field is empty, missing or of an
unsupported type (the source's `text_content == ""` path) is excluded from
the whole pipeline: the enumerated key set and the update page list are
exactly those of the same run without the record, a warning naming the
record is logged, no error is logged, and the update tasks built from any
price map are unchanged.  Additionally, even a record whose empty fragment
array makes the source raise `IndexError` contributes no key, and the
enumeration still returns (the exception is logged, not propagated). -/
theorem c7_exclusion (pre post : List Page) (p : Page)
    (hpre : ∀ q ∈ pre, ∃ o, pageKeyE q.symbol = Except.ok o)
    (hpost : ∀ q ∈ post, ∃ o, pageKeyE q.symbol = Except.ok o) :
    (pageKeyE p.symbol = Except.ok none →
      (getCoinsFromNotion [Except.ok (pre ++ p :: post)]).keys
          = (getCoinsFromNotion [Except.ok (pre ++ post)]).keys
      ∧ p.id ∈ (getCoinsFromNotion [Except.ok (pre ++ p :: post)]).warnings
      ∧ (getCoinsFromNotion [Except.ok (pre ++ p :: post)]).errors = []
      ∧ (getAllNotionPagesForUpdate [Except.ok (pre ++ p :: post)]).pages
          = (getAllNotionPagesForUpdate [Except.ok (pre ++ post)]).pages
      ∧ ∀ prices,
          buildUpdateTasks
              (getAllNotionPagesForUpdate [Except.ok (pre ++ p :: post)]).pages prices
            = buildUpdateTasks
              (getAllNotionPagesForUpdate [Except.ok (pre ++ post)]).pages prices)
    ∧ (∀ m, pageKeyE p.symbol = Except.error m →
      (getCoinsFromNotion [Except.ok (pre ++ p :: post)]).keys
          = (getCoinsFromNotion [Except.ok pre]).keys
      ∧ (getCoinsFromNotion [Except.ok (pre ++ p :: post)]).errors = [m]) := by
  have hA2 : (processPagesE ([], []) pre).2 = none := processPagesE_clean pre hpre [] []
  have hR2 : (processRefsE ([], []) pre).2 = none := processRefsE_clean pre hpre [] []
  constructor
  · intro h
    have hKfull : processPagesE ([], []) (pre ++ p :: post)
        = (((processPagesE ([], []) pre).1.1 ++ (processPagesE ([], []) post).1.1,
            ((processPagesE ([], []) pre).1.2 ++ [p.id]) ++ (processPagesE ([], []) post).1.2),
           (processPagesE ([], []) post).2) := by
      rw [processPagesE_append pre (p :: post) ([], []) hA2]
      rcases hA : (processPagesE ([], []) pre).1 with ⟨ks0, ws0⟩
      exact processPagesE_skip ks0 ws0 p post h
    have hKwo : processPagesE ([], []) (pre ++ post)
        = (((processPagesE ([], []) pre).1.1 ++ (processPagesE ([], []) post).1.1,
            (processPagesE ([], []) pre).1.2 ++ (processPagesE ([], []) post).1.2),
           (processPagesE ([], []) post).2) := by
      rw [processPagesE_append pre post ([], []) hA2]
      rcases hA : (processPagesE ([], []) pre).1 with ⟨ks0, ws0⟩
      exact processPagesE_shift ks0 ws0 post
    have hRfull : processRefsE ([], []) (pre ++ p :: post)
        = (((processRefsE ([], []) pre).1.1 ++ (processRefsE ([], []) post).1.1,
            ((processRefsE ([], []) pre).1.2 ++ [p.id]) ++ (processRefsE ([], []) post).1.2),
           (processRefsE ([], []) post).2) := by
      rw [processRefsE_append pre (p :: post) ([], []) hR2]
      rcases hA : (processRefsE ([], []) pre).1 with ⟨ks0, ws0⟩
      exact processRefsE_skip ks0 ws0 p post h
    have hRwo : processRefsE ([], []) (pre ++ post)
        = (((processRefsE ([], []) pre).1.1 ++ (processRefsE ([], []) post).1.1,
            (processRefsE ([], []) pre).1.2 ++ (processRefsE ([], []) post).1.2),
           (processRefsE ([], []) post).2) := by
      rw [processRefsE_append pre post ([], []) hR2]
      rcases hA : (processRefsE ([], []) pre).1 with ⟨ks0, ws0⟩
      exact processRefsE_shift ks0 ws0 post
    have e1 := getCoins_single_clean (pre ++ p :: post)
      (by rw [hKfull]; exact processPagesE_clean post hpost [] [])
    have e2 := getCoins_single_clean (pre ++ post)
      (by rw [hKwo]; exact processPagesE_clean post hpost [] [])
    have f1 := getPages_single_clean (pre ++ p :: post)
      (by rw [hRfull]; exact processRefsE_clean post hpost [] [])
    have f2 := getPages_single_clean (pre ++ post)
      (by rw [hRwo]; exact processRefsE_clean post hpost [] [])
    have hpages : (getAllNotionPagesForUpdate [Except.ok (pre ++ p :: post)]).pages
        = (getAllNotionPagesForUpdate [Except.ok (pre ++ post)]).pages := by
      rw [f1, f2]
      simp only [hRfull, hRwo]
    refine ⟨?_, ?_, ?_, hpages, fun prices => by rw [hpages]⟩
    · rw [e1, e2]
      simp only [hKfull, hKwo]
    · rw [e1]
      simp only [hKfull]
      simp
    · rw [e1]
  · intro m h2
    have hKerr : processPagesE ([], []) (pre ++ p :: post)
        = ((processPagesE ([], []) pre).1, some m) := by
      rw [processPagesE_append pre (p :: post) ([], []) hA2]
      simp only [processPagesE, h2]
    have e3 := getCoins_single_raise (pre ++ p :: post) m (by rw [hKerr])
    have e4 := getCoins_single_clean pre hA2
    constructor
    · rw [e3, e4]
      simp only [hKerr]
    · rw [e3]

/-- C7 witness: a page holding an unsupported property type is skipped
with a warning while its sibling page is still enumerated. -/
theorem c7_exclusion_witness :
    pageKeyE (SymbolProp.unsupported) = Except.ok none
    ∧ (getCoinsFromNotion
        [Except.ok ([⟨"pa", SymbolProp.richText (some "btc"), none⟩]
          ++ (⟨"p0", SymbolProp.unsupported, none⟩ : Page) :: [])]).keys
      = (getCoinsFromNotion
        [Except.ok ([⟨"pa", SymbolProp.richText (some "btc"), none⟩] ++ [])]).keys
    ∧ "p0" ∈ (getCoinsFromNotion
        [Except.ok ([⟨"pa", SymbolProp.richText (some "btc"), none⟩]
          ++ (⟨"p0", SymbolProp.unsupported, none⟩ : Page) :: [])]).warnings := by
  have hpre : ∀ q ∈ [(⟨"pa", SymbolProp.richText (some "btc"), none⟩ : Page)],
      ∃ o, pageKeyE q.symbol = Except.ok o := by
    intro q hq
    simp only [List.mem_singleton] at hq
    subst hq
    exact ⟨some "btc", by decide⟩
  have hpost : ∀ q ∈ ([] : List Page), ∃ o, pageKeyE q.symbol = Except.ok o := by
    intro q hq
    simp at hq
  have h := (c7_exclusion [⟨"pa", SymbolProp.richText (some "btc"), none⟩] []
    ⟨"p0", SymbolProp.unsupported, none⟩ hpre hpost).1 rfl
  exact ⟨rfl, h.1, h.2.1⟩

/-- C8 counterexample.  At a concrete instant the PATCH payload's
timestamp is `datetime.now().isoformat()` = "2026-10-12T15:04:05.123456":
its last character is the digit '6', not the claimed trailing 'Z', and no
timezone designator is present (the datetime is naive local time, not
explicit UTC). -/
theorem c8_counterexample :
    (buildPayload ⟨2026, 10, 12, 15, 4, 5, 123456⟩ ("p1", 5)).timestamp
      = "2026-10-12T15:04:05.123456"
    ∧ ("2026-10-12T15:04:05.123456" : String).data.getLast? = some '6'
    ∧ ('6' : Char) ≠ 'Z' :=
  ⟨by decide, by decide, by decide⟩

/-- C8 amended: every dispatched write-back sets the last-updated field to
the current instant serialized with `datetime.now().isoformat()` — a
timezone-naive local-time ISO-8601 string whose last character is always a
digit, never a trailing 'Z' (and with no UTC marker of any kind). -/
theorem c8_amended (now : PyDateTime) (t : String × Rat) :
    (buildPayload now t).timestamp = isoformat now
    ∧ (isoformat now).data.getLast? ≠ some 'Z' :=
  ⟨rfl, isoformat_not_Z now⟩

/-- C9 counterexample.  A chunk attempt receiving a 429 with no Retry-After
header sleeps 60 seconds — not the claimed 0.5 s exponential backoff — and
the 429 `continue` consumes one of the 3 attempts: after the 429 and two
hard failures the chunk raises with only 3 requests issued, even though a
successful response was available for a 4th attempt.  The connector's
`get_batch_prices` likewise sleeps 5 s then 10 s, not 0.5 s then 1 s. -/
theorem c9_counterexample :
    runChunk [OracleResp.rateLimited none, OracleResp.err "e1", OracleResp.err "e2",
        OracleResp.ok [("btc", 1)]]
      = ⟨none, [60], some "e2", 3⟩
    ∧ ((60 : Rat) ≠ 1 / 2)
    ∧ getBatchPrices [ConnResp.http429, ConnResp.http429, ConnResp.ok [("btc", 1)]]
      = ([5, 10], [("btc", 1)])
    ∧ ((5 : Rat) ≠ 1 / 2)
    ∧ ((10 : Rat) ≠ 1) :=
  ⟨by decide, by norm_num, by decide, by norm_num, by norm_num⟩

/-- C9 amended: on a 429 the app client sleeps `int(Retry-After)` seconds
when the header is present and a fixed 60 seconds otherwise (no
exponential schedule), and the retry consumes one of the chunk's 3
attempts; a chunk receiving three 429s is abandoned silently after 3
requests.  The connector's `get_batch_prices` ignores Retry-After and
sleeps `(2 ** attempt) * 5` seconds while attempts remain. -/
theorem c9_amended (ra : Option Nat) (n : Nat) (rs : List OracleResp)
    (a : Nat) (crs : List ConnResp) :
    runChunkGo (n + 1) (OracleResp.rateLimited ra :: rs)
      = ⟨(runChunkGo n rs).data, ra.getD 60 :: (runChunkGo n rs).sleeps,
          (runChunkGo n rs).raised, (runChunkGo n rs).requests + 1⟩
    ∧ (∀ ra1 ra2 ra3 : Option Nat,
        runChunk [OracleResp.rateLimited ra1, OracleResp.rateLimited ra2,
          OracleResp.rateLimited ra3]
        = ⟨none, [ra1.getD 60, ra2.getD 60, ra3.getD 60], none, 3⟩)
    ∧ getBatchPricesGo a (ConnResp.http429 :: crs)
      = (if a < 2 then
          ((2 ^ a * 5) :: (getBatchPricesGo (a + 1) crs).1, (getBatchPricesGo (a + 1) crs).2)
        else ([], [])) := by
  refine ⟨rfl, fun ra1 ra2 ra3 => rfl, ?_⟩
  by_cases ha : a < 2
  · rw [if_pos ha]
    simp only [getBatchPricesGo, if_pos ha]
  · rw [if_neg ha]
    simp only [getBatchPricesGo, if_neg ha]

/-- C10: the dispatcher produces exactly one `(success, info)` outcome per
queued task (same length, task order), the per-item update function turns
every PATCH exception into a `(False, "page_id: msg")` outcome rather than
raising, and every outcome is either a success carrying the page id or a
failure — so one failing item can never abort or lose sibling outcomes. -/
theorem c10_dispatch (tasks : List (String × Rat)) (results : List (Except String Unit))
    (h : results.length = tasks.length) :
    (updateNotionDatabaseResults results tasks).length = tasks.length
    ∧ (∀ (t : String × Rat) (e : String),
        updateSingleNotionPage (Except.error e) t = (false, t.1 ++ ": " ++ e))
    ∧ (∀ (t : String × Rat) (r : Except String Unit),
        updateSingleNotionPage r t = (true, t.1)
          ∨ (updateSingleNotionPage r t).1 = false) := by
  refine ⟨?_, fun t e => rfl, fun t r => ?_⟩
  · simp only [updateNotionDatabaseResults, List.length_map, List.length_zip, h, Nat.min_self]
  · cases r with
    | ok u => exact Or.inl rfl
    | error e => exact Or.inr rfl

/-- C10 witness at a concrete one-task dispatch. -/
theorem c10_dispatch_witness :
    ([Except.ok ()] : List (Except String Unit)).length
        = [(("p1" : String), (5 : Rat))].length
    ∧ (updateNotionDatabaseResults [Except.ok ()] [("p1", 5)]).length
        = [(("p1" : String), (5 : Rat))].length :=
  ⟨rfl, (c10_dispatch [("p1", 5)] [Except.ok ()] rfl).1⟩
